import Mathlib

/-!
Verification of the raster-to-vector decomposition pipeline of the
my-canva-app repository.

The server code exists in several versions inside the repository:
`src/server/index.js` (named file) and `src/unnamed/part_000 .. part_003`.
The pure algorithmic core — path-data splitting, viewBox parsing, the
cap-limited extraction loops, font resolution, text cleaning and the SVG
text template — is embedded here over `List Char` (JS strings).  The
impure collaborators (sharp image operations, the potrace tracer) are
modelled as oracle parameters returning `Except`; the tracer's SVG output
is modelled as the structure `SvgDoc` (the ordered `d` attributes plus the
optional `viewBox` attribute content), which is what the regex scans
`svg.matchAll(/<path[^>]*d="([^"]+)"/g)` and
`svg.match(/viewBox="..."/)` extract from a well-formed single-`<svg>`
document.  JS whitespace handling is restricted to the ASCII whitespace
characters that occur in SVG path data.
-/

namespace VecApp

/-- JS strings are modelled as lists of characters. -/
abbrev Str := List Char

/-- ASCII whitespace, the characters JS `trim` / `\s` handle in the
documents this server produces and consumes. -/
def isWsChar (c : Char) : Bool :=
  c = ' ' || c = '\t' || c = '\n' || c = '\x0d' || c = '\x0b' || c = '\x0c'

/-- Subpath-start command characters, as tested by the source
(`c === "M" || c === "m"`). -/
def isMove (c : Char) : Bool := c = 'M' || c = 'm'

/-- JS `String.prototype.trim`: drop whitespace from both ends. -/
def trim (l : Str) : Str :=
  ((l.dropWhile isWsChar).reverse.dropWhile isWsChar).reverse

/-- Number of subpath-start commands in a path-data string. -/
def cntMove : Str → Nat
  | [] => 0
  | c :: r => (if isMove c then 1 else 0) + cntMove r

/-! ### viewBox parsing (`extractViewBox`, all server versions)

`svg.match(/viewBox="([\d.\-]+)\s+([\d.\-]+)\s+([\d.\-]+)\s+([\d.\-]+)"/)`.
Inside a document with a single `viewBox="..."` attribute the regex
matches iff the attribute content is exactly four `[\d.\-]+` tokens
separated by `\s+` runs (the character classes are disjoint and the
closing `"` pins the end, so greedy munching is canonical); `vbMatch`
below realises that match on the attribute content.  JS `Number` applied
to a `[\d.\-]+` token is modelled by `jsNum`, with `JsNum.nan` for the
non-finite result. -/

/-- Characters of the regex token class `[\d.\-]`. -/
def isTokChar (c : Char) : Bool := c.isDigit || c = '.' || c = '-'

/-- A JS number that is either NaN or a finite rational. -/
inductive JsNum where
  | nan : JsNum
  | fin : ℚ → JsNum
deriving DecidableEq

/-- The `{left, top, width, height}` object built by `extractViewBox`. -/
structure ViewBox where
  left : JsNum
  top : JsNum
  width : JsNum
  height : JsNum
deriving DecidableEq

/-- The hard-coded fallback `{width: 1000, height: 1000, left: 0, top: 0}`. -/
def defaultViewBox : ViewBox :=
  ⟨JsNum.fin 0, JsNum.fin 0, JsNum.fin 1000, JsNum.fin 1000⟩

/-- Decimal value of a digit string. -/
def digitsToNat (l : Str) : Nat :=
  l.foldl (fun a c => 10 * a + (c.toNat - 48)) 0

/-- JS `Number` on an unsigned `[\d.]*` body: `digits`, `digits.`,
`digits.digits` or `.digits`; anything else (in the `[\d.\-]` charset)
is NaN. -/
def parseCore (s : Str) : Option ℚ :=
  let ds := s.takeWhile Char.isDigit
  match s.drop ds.length with
  | [] => if ds = [] then none else some (digitsToNat ds)
  | '.' :: frac =>
      if frac.all Char.isDigit && !(ds = [] && frac = []) then
        some ((digitsToNat ds : ℚ) + (digitsToNat frac : ℚ) / 10 ^ frac.length)
      else none
  | _ => none

/-- JS `Number` on a string over the `[\d.\-]` charset. -/
def jsNum : Str → JsNum
  | '-' :: rest =>
      match parseCore rest with
      | some q => JsNum.fin (-q)
      | none => JsNum.nan
  | s =>
      match parseCore s with
      | some q => JsNum.fin q
      | none => JsNum.nan

/-- Regex match of `([\d.\-]+)\s+([\d.\-]+)\s+([\d.\-]+)\s+([\d.\-]+)`
against the full viewBox attribute content (the final `"` of the pattern
forces the fourth token to end the content). -/
def vbMatch (c : Str) : Option (Str × Str × Str × Str) :=
  let t1 := c.takeWhile isTokChar
  let r1 := c.dropWhile isTokChar
  if t1 = [] then none else
  let w1 := r1.takeWhile isWsChar
  let r2 := r1.dropWhile isWsChar
  if w1 = [] then none else
  let t2 := r2.takeWhile isTokChar
  let r3 := r2.dropWhile isTokChar
  if t2 = [] then none else
  let w2 := r3.takeWhile isWsChar
  let r4 := r3.dropWhile isWsChar
  if w2 = [] then none else
  let t3 := r4.takeWhile isTokChar
  let r5 := r4.dropWhile isTokChar
  if t3 = [] then none else
  let w3 := r5.takeWhile isWsChar
  let r6 := r5.dropWhile isWsChar
  if w3 = [] then none else
  let t4 := r6.takeWhile isTokChar
  let r7 := r6.dropWhile isTokChar
  if t4 = [] then none else
  if r7 = [] then some (t1, t2, t3, t4) else none

/-- The tracer's SVG output, reduced to what the extraction regexes read:
the content of the single `viewBox` attribute (if present) and the `d`
attribute contents in document order. -/
structure SvgDoc where
  viewBoxAttr : Option Str
  pathDs : List Str
deriving DecidableEq

/-- Source `extractViewBox` (identical in `src/server/index.js`,
`part_000`, `part_002`, `part_003`): regex match, else the default box;
on a match, `Number` each captured token. -/
def extractViewBox (attr : Option Str) : ViewBox :=
  match attr with
  | none => defaultViewBox
  | some c =>
      match vbMatch c with
      | none => defaultViewBox
      | some (t1, t2, t3, t4) => ⟨jsNum t1, jsNum t2, jsNum t3, jsNum t4⟩

/-! ### Flatten-mode splitters -/

/-- Loop body of `splitToSingleMovePaths` (`part_002` lines 30–49): walk
the characters; on `M`/`m` with a nonempty-after-trim accumulator, push
the trimmed accumulator and restart it; always append the character.
After the loop, push the trimmed remainder if nonempty. -/
def splitPartsAux : Str → Str → List Str
  | [], current => if trim current = [] then [] else [trim current]
  | c :: rest, current =>
      if isMove c = true ∧ trim current ≠ [] then
        trim current :: splitPartsAux rest [c]
      else
        splitPartsAux rest (current ++ [c])

/-- Close-command fixup of `splitToSingleMovePaths`: re-trim, and append
`" Z"` unless the fragment already ends with `Z` or `z`. -/
def closeZ (p : Str) : Str :=
  let t := trim p
  if t.getLast? = some 'Z' ∨ t.getLast? = some 'z' then t else t ++ [' ', 'Z']

/-- Source `splitToSingleMovePaths` (`part_002`): split at subpath
starts, keep fragments longer than 3 characters, ensure a trailing close
command. -/
def splitToSingleMovePaths (d : Str) : List Str :=
  ((splitPartsAux d []).filter (fun p => 3 < p.length)).map closeZ

/-- Index collection of `extractSubpaths`: positions of every `M`/`m`. -/
def moveIdxAux : Str → Nat → List Nat
  | [], _ => []
  | c :: r, i => if isMove c then i :: moveIdxAux r (i + 1) else moveIdxAux r (i + 1)

/-- Positions of all subpath-start commands, as the `idx` array of
`extractSubpaths`. -/
def moveIdx (d : Str) : List Nat := moveIdxAux d 0

/-- JS `d.slice(start, end)` for `start ≤ end ≤ d.length`. -/
def jsSlice (d : Str) (s e : Nat) : Str := (d.take e).drop s

/-- Slice loop of `extractSubpaths`: one trimmed piece per index, running
to the next index (or the end of the string), empty pieces skipped. -/
def piecesAux (d : Str) : List Nat → List Str
  | [] => []
  | [i] =>
      let piece := trim (jsSlice d i d.length)
      if piece = [] then [] else [piece]
  | i :: j :: rest =>
      let piece := trim (jsSlice d i j)
      (if piece = [] then [] else [piece]) ++ piecesAux d (j :: rest)

/-- Source `extractSubpaths` (`src/server/index.js` lines 22–37 and
`part_000` lines 22–38): with at most one subpath start the whole trimmed
string is returned; otherwise the string is sliced between successive
`M`/`m` positions, trimmed, and pieces not starting with `M`/`m` are
dropped. -/
def extractSubpaths (d : Str) : List Str :=
  let idx := moveIdx d
  if idx.length ≤ 1 then [trim d]
  else
    (piecesAux d idx).filter (fun p => p.headI = 'M' ∨ p.headI = 'm')

/-! ### Cap-limited extraction loops -/

/-- Inner loop of `extractPaths`: push each subpath, breaking as soon as
the running count `k` reaches `limit` after a push.  Returns the pushed
elements and the new count. -/
def innerGo {α : Type} (limit : Nat) : List α → Nat → List α × Nat
  | [], k => ([], k)
  | s :: rest, k =>
      if limit ≤ k + 1 then ([s], k + 1)
      else
        let r := innerGo limit rest (k + 1)
        (s :: r.1, r.2)

/-- Outer loop of `extractPaths`, parameterised by the per-string
splitter (`extractSubpaths` in `src/server/index.js`, trimmed
`splitToSingleMovePaths` in `part_002`): after each string's subpaths are
pushed, break if the count reached `limit`. -/
def outerGo (split : Str → List Str) (limit : Nat) : List Str → Nat → List Str
  | [], _ => []
  | d :: rest, k =>
      let pk := innerGo limit (split d) k
      if limit ≤ pk.2 then pk.1 else pk.1 ++ outerGo split limit rest pk.2

/-- Loop of `extractCompoundPaths` (`part_003` lines 31–44): push each
nonempty trimmed path-data string whole, breaking once the count reaches
`limit` after a push (empty strings are skipped without checking). -/
def compoundGo (limit : Nat) : List Str → Nat → List Str
  | [], _ => []
  | d :: rest, k =>
      let t := trim d
      if t = [] then compoundGo limit rest k
      else if limit ≤ k + 1 then [t]
      else t :: compoundGo limit rest (k + 1)

/-- The `{paths, viewBox}` object returned by the extraction functions. -/
structure ExtractResult where
  paths : List Str
  viewBox : ViewBox
deriving DecidableEq

/-- Source `extractPaths` of `part_002` (lines 51–64): flatten mode via
`splitToSingleMovePaths(m[1].trim())`, default limit 300 at the call
sites. -/
def extractPathsP2 (doc : SvgDoc) (limit : Nat) : ExtractResult :=
  ⟨outerGo (fun d => splitToSingleMovePaths (trim d)) limit doc.pathDs 0,
   extractViewBox doc.viewBoxAttr⟩

/-- Source `extractPaths` of `src/server/index.js` (lines 73–86): flatten
mode via `extractSubpaths(m[1])`, default limit 200 at the call sites. -/
def extractPathsServer (doc : SvgDoc) (limit : Nat) : ExtractResult :=
  ⟨outerGo extractSubpaths limit doc.pathDs 0,
   extractViewBox doc.viewBoxAttr⟩

/-- Source `extractCompoundPaths` of `part_003` (lines 31–44): compound
mode, each path-data string kept verbatim (trimmed), default limit 200. -/
def extractCompoundPaths (doc : SvgDoc) (limit : Nat) : ExtractResult :=
  ⟨compoundGo limit doc.pathDs 0, extractViewBox doc.viewBoxAttr⟩

/-! ### Font registries and text rendering (`part_002` and `part_003`) -/

/-- One entry of a `FONTS` table: CSS family list and weight. -/
structure FontSpec where
  family : Str
  weight : Str
deriving DecidableEq

/-- The `FONTS["sans-bold"]` entry of `part_002`, also its fallback. -/
def fontSansBold : FontSpec :=
  ⟨("Liberation Sans, DejaVu Sans, FreeSans, sans-serif").toList, ("bold").toList⟩

/-- The `FONTS` object literal of `part_002` (lines 127–138), as an
ordered own-property table. -/
def FONTS_P2 : List (Str × FontSpec) :=
  [ (("sans-bold").toList, fontSansBold),
    (("serif-bold").toList,
      ⟨("Liberation Serif, DejaVu Serif, FreeSerif, serif").toList, ("bold").toList⟩),
    (("mono-bold").toList,
      ⟨("Liberation Mono, DejaVu Sans Mono, FreeMono, monospace").toList, ("bold").toList⟩),
    (("sans-black").toList,
      ⟨("Liberation Sans, DejaVu Sans, sans-serif").toList, ("900").toList⟩),
    (("sans-thin").toList,
      ⟨("Liberation Sans, DejaVu Sans, sans-serif").toList, ("100").toList⟩),
    (("sans-light").toList,
      ⟨("Liberation Sans, DejaVu Sans, sans-serif").toList, ("300").toList⟩),
    (("serif-normal").toList,
      ⟨("Liberation Serif, DejaVu Serif, serif").toList, ("normal").toList⟩),
    (("mono-normal").toList,
      ⟨("Liberation Mono, DejaVu Sans Mono, monospace").toList, ("normal").toList⟩),
    (("noto-bold").toList,
      ⟨("Noto Sans, DejaVu Sans, sans-serif").toList, ("bold").toList⟩),
    (("noto-black").toList,
      ⟨("Noto Sans, DejaVu Sans, sans-serif").toList, ("900").toList⟩) ]

/-- The `FONTS["arial"]` entry of `part_003`, also its fallback. -/
def fontArial : FontSpec :=
  ⟨("Arial, Helvetica, sans-serif").toList, ("bold").toList⟩

/-- The `FONTS` object literal of `part_003` (lines 111–122). -/
def FONTS_P3 : List (Str × FontSpec) :=
  [ (("arial").toList, fontArial),
    (("serif").toList,
      ⟨("Georgia, \x27Times New Roman\x27, serif").toList, ("bold").toList⟩),
    (("mono").toList,
      ⟨("\x27Courier New\x27, Courier, monospace").toList, ("bold").toList⟩),
    (("impact").toList,
      ⟨("Impact, \x27Arial Black\x27, sans-serif").toList, ("normal").toList⟩),
    (("cursive").toList,
      ⟨("\x27Comic Sans MS\x27, cursive, sans-serif").toList, ("bold").toList⟩),
    (("rounded").toList,
      ⟨("Verdana, Geneva, sans-serif").toList, ("bold").toList⟩),
    (("thin").toList,
      ⟨("Arial, Helvetica, sans-serif").toList, ("100").toList⟩),
    (("light").toList,
      ⟨("\x27Trebuchet MS\x27, Helvetica, sans-serif").toList, ("300").toList⟩),
    (("black").toList,
      ⟨("\x27Arial Black\x27, Gadget, sans-serif").toList, ("900").toList⟩),
    (("condensed").toList,
      ⟨("\x27Arial Narrow\x27, Arial, sans-serif").toList, ("bold").toList⟩) ]

/-- Own-property lookup on an object-literal table (the first stage of a
JS bracket access). -/
def jsLookup (m : List (Str × FontSpec)) (k : Str) : Option FontSpec :=
  (m.find? (fun e => e.1 = k)).map (fun e => e.2)

/-- The property names every object literal inherits from
`Object.prototype` (Node's standard members).  A bracket access finds
them when the key is not an own property, and each of them is a truthy
value (a function, or the prototype object itself for `__proto__`). -/
def protoKeys : List Str :=
  [("constructor").toList, ("hasOwnProperty").toList,
   ("isPrototypeOf").toList, ("propertyIsEnumerable").toList,
   ("toLocaleString").toList, ("toString").toList, ("valueOf").toList,
   ("__proto__").toList, ("__defineGetter__").toList,
   ("__defineSetter__").toList, ("__lookupGetter__").toList,
   ("__lookupSetter__").toList]

/-- A value produced by `FONTS[key]`: a registry entry (an own
property), or the truthy member inherited from `Object.prototype`,
identified by its key. -/
inductive JsFontValue where
  | spec : FontSpec → JsFontValue
  | proto : Str → JsFontValue
deriving DecidableEq

/-- JS bracket access `FONTS[k]` on an object literal: own properties
shadow the prototype; otherwise the `Object.prototype` member of that
name is found; otherwise the access yields `undefined` (`none`). -/
def jsGetProp (m : List (Str × FontSpec)) (k : Str) : Option JsFontValue :=
  match jsLookup m k with
  | some f => some (JsFontValue.spec f)
  | none => if k ∈ protoKeys then some (JsFontValue.proto k) else none

/-- Font resolution of `part_002` (`renderTextToPng`, line 141):
`FONTS[fontKey] || FONTS["sans-bold"]`.  An absent body field reads as
the key `"undefined"`, which is neither an own property nor a prototype
member, so it falls back; every value a bracket access can produce
(registry entry or inherited prototype member) is truthy, so the `||`
fallback fires only when the access yields `undefined`. -/
def resolveFontP2 (key : Option Str) : JsFontValue :=
  match key with
  | none => JsFontValue.spec fontSansBold
  | some k =>
      match jsGetProp FONTS_P2 k with
      | some v => v
      | none => JsFontValue.spec fontSansBold

/-- Font resolution of `part_003` (`/text-to-frame`, line 132):
`FONTS[fontStyle] || FONTS["arial"]`, with the same bracket-access
semantics as `resolveFontP2`. -/
def resolveFontP3 (key : Option Str) : JsFontValue :=
  match key with
  | none => JsFontValue.spec fontArial
  | some k =>
      match jsGetProp FONTS_P3 k with
      | some v => v
      | none => JsFontValue.spec fontArial

/-- Interpolation of `font.family` into the SVG template: a registry
entry contributes its family string; an inherited prototype member has
no `family` field, so the template literal renders `undefined` as the
string `"undefined"`. -/
def fontFamilyStr : JsFontValue → Str
  | JsFontValue.spec f => f.family
  | JsFontValue.proto _ => ("undefined").toList

/-- Interpolation of `font.weight` into the SVG template (same
`undefined` rendering as `fontFamilyStr`). -/
def fontWeightStr : JsFontValue → Str
  | JsFontValue.spec f => f.weight
  | JsFontValue.proto _ => ("undefined").toList

/-- JS `s.replace(/c/g, rep)` for a single-character pattern: each
occurrence replaced, replacements not rescanned. -/
def repChar (c : Char) (rep : Str) (l : Str) : Str :=
  l.flatMap (fun x => if x = c then rep else [x])

/-- The three-step HTML escape of `src/server/index.js` (`&`, `<`, `>`,
in source order). -/
def escape3 (l : Str) : Str :=
  repChar '>' (("&gt;").toList) (repChar '<' (("&lt;").toList)
    (repChar '&' (("&amp;").toList) l))

/-- The four-step HTML escape of `part_002`/`part_003` (`&`, `<`, `>`,
`"`, in source order). -/
def escape4 (l : Str) : Str :=
  repChar '"' (("&quot;").toList) (escape3 l)

/-- The SVG text template of `renderTextToPng` (`part_002` lines 146–152):
a 2000×1000 white canvas with one centred `<text>` element.  The JS
number-to-string serialisations of `fontSize` and of the `y` expression
`canvasH / 2 + fontSize * 0.1` are abstracted as the strings `sizeStr`
and `yStr`; the glyph content is the escaped text; `font.family` and
`font.weight` are interpolated through `fontFamilyStr`/`fontWeightStr`. -/
def renderTextSvgP2 (font : JsFontValue) (sizeStr yStr : Str) (text : Str) : Str :=
  ("<svg xmlns=\"http://www.w3.org/2000/svg\" width=\"2000\" height=\"1000\">\n    <rect width=\"2000\" height=\"1000\" fill=\"white\"/>\n    <text x=\"1000\" y=\"").toList
    ++ yStr
    ++ ("\" text-anchor=\"middle\" dominant-baseline=\"middle\"\n      font-family=\"").toList
    ++ fontFamilyStr font
    ++ ("\" font-size=\"").toList
    ++ sizeStr
    ++ ("\" font-weight=\"").toList
    ++ fontWeightStr font
    ++ ("\"\n      fill=\"black\">").toList
    ++ escape4 text
    ++ ("</text>\n  </svg>").toList

/-- Text cleaning of the `src/server/index.js` `/text-to-frame` handler
(line 199): `text.trim().substring(0, 100)`. -/
def serverCleanText (t : Str) : Str := (trim t).take 100

/-- The SVG text template of `src/server/index.js` (lines 202–209):
a 1200×600 white canvas, literal `y="350"`, fixed Arial family; `sizeStr`
and `weightStr` abstract the serialised `fontSize`/`fontWeight`; the
content is the three-step-escaped clean text. -/
def serverTextSvg (sizeStr weightStr : Str) (clean : Str) : Str :=
  ("<svg xmlns=\"http://www.w3.org/2000/svg\" width=\"1200\" height=\"600\">\n      <rect width=\"1200\" height=\"600\" fill=\"white\"/>\n      <text x=\"600\" y=\"350\" text-anchor=\"middle\" dominant-baseline=\"middle\"\n        font-family=\"Arial, Helvetica, sans-serif\"\n        font-size=\"").toList
    ++ sizeStr
    ++ ("\"\n        font-weight=\"").toList
    ++ weightStr
    ++ ("\"\n        fill=\"black\">").toList
    ++ escape3 clean
    ++ ("</text>\n    </svg>").toList

/-! ### Handlers (orchestration) -/

/-- An HTTP handler outcome: 400 with an error message, 500 with an
error message, or a JSON payload. -/
inductive HResp (A : Type) where
  | bad : Str → HResp A
  | err : Str → HResp A
  | ok : A → HResp A
deriving DecidableEq

/-- The `"No path found"` message of the single-item handlers. -/
def noPathMsg : Str := ("No path found").toList

/-- The `"No text provided"` message of `/text-to-frame`. -/
def noTextMsg : Str := ("No text provided").toList

/-- The combined-mode failure message of `part_002` `/text-to-frame`. -/
def couldNotMsg : Str := ("Could not convert text").toList

/-- The `processImage` pipeline reduced to its pure tail: the sharp
normalisation and potrace call are an oracle producing the traced
document (or an error string), after which `extractPaths` of `part_002`
runs with its default limit 300. -/
def processImageM (traced : Except Str SvgDoc) : Except Str ExtractResult :=
  traced.map (fun doc => extractPathsP2 doc 300)

/-- Single `/vectorize` handler (`src/server/index.js` lines 107–116 and
`part_002` lines 78–85): missing file is a 400; a pipeline error is a
500; an empty `paths` list is a 500 `"No path found"`; otherwise the
result is returned. -/
def vectorizeHandler {α : Type} (pipe : α → Except Str ExtractResult)
    (file : Option α) : HResp ExtractResult :=
  match file with
  | none => HResp.bad (("No file uploaded").toList)
  | some f =>
      match pipe f with
      | Except.error e => HResp.err e
      | Except.ok r => if r.paths = [] then HResp.err noPathMsg else HResp.ok r

/-- One entry of the `/vectorize-batch` result list: `{name, ...result}`
on success, `{name, error}` on a caught per-item failure. -/
inductive BatchEntry where
  | ok : Str → ExtractResult → BatchEntry
  | err : Str → Str → BatchEntry
deriving DecidableEq

/-- The `/vectorize-batch` loop (`part_002` lines 90–94, same shape in
`src/server/index.js` lines 124–132): per-file try/catch, pushing one
entry per file in order. -/
def batchLoop {α : Type} (pipe : α → Except Str ExtractResult)
    (files : List (Str × α)) : List BatchEntry :=
  files.foldl
    (fun acc f =>
      acc ++ [match pipe f.2 with
              | Except.ok r => BatchEntry.ok f.1 r
              | Except.error e => BatchEntry.err f.1 e])
    []

/-- The `/vectorize-batch` handler: 400 when no files, else the loop. -/
def vectorizeBatchHandler {α : Type} (pipe : α → Except Str ExtractResult)
    (files : Option (List (Str × α))) : HResp (List BatchEntry) :=
  match files with
  | none => HResp.bad (("No files").toList)
  | some fs => if fs.length = 0 then HResp.bad (("No files").toList)
               else HResp.ok (batchLoop pipe fs)

/-- One entry of the individual-mode `/text-to-frame` result list:
`{letter, ...result}` on success, `{letter, paths: [], error}` on a
caught failure. -/
inductive LetterEntry where
  | ok : Char → ExtractResult → LetterEntry
  | err : Char → List Str → Str → LetterEntry
deriving DecidableEq

/-- The individual-mode per-letter loop of `part_002` `/text-to-frame`
(lines 174–186): per-letter try/catch, one entry per letter in order,
the failure entry carrying an empty `paths` list. -/
def indivLoop (pipe : Char → Except Str ExtractResult)
    (letters : List Char) : List LetterEntry :=
  letters.foldl
    (fun acc c =>
      acc ++ [match pipe c with
              | Except.ok r => LetterEntry.ok c r
              | Except.error e => LetterEntry.err c [] e])
    []

/-- Oracles for the impure stages of the text pipeline: rendering the
text SVG to a bitmap (sharp render + `trim({threshold: 20})`), the
binarising sharp chain, and the potrace call (threshold 128, turdSize 2)
whose SVG output is read back as an `SvgDoc`. -/
structure TextOracles (Png : Type) where
  render : Str → Except Str Png
  raster : Png → Except Str Png
  traceT : Png → Except Str SvgDoc

/-- One run of the `part_002` text pipeline on a given text: build the
SVG template, render, binarise, trace, then `extractPaths` (limit 300). -/
def combinedPipeline {Png : Type} (O : TextOracles Png) (font : JsFontValue)
    (sizeStr yStr : Str) (text : Str) : Except Str ExtractResult := do
  let png ← O.render (renderTextSvgP2 font sizeStr yStr text)
  let bin ← O.raster png
  let doc ← O.traceT bin
  pure (extractPathsP2 doc 300)

/-- The `/text-to-frame` JSON payload of `part_002`: individual entries
or one combined result. -/
inductive TextResponse where
  | indiv : List LetterEntry → TextResponse
  | combined : ExtractResult → TextResponse
deriving DecidableEq

/-- Body of the `part_002` `/text-to-frame` handler after validation and
cleaning: individual mode loops over the non-whitespace characters of
the clean text; combined mode runs the pipeline once and turns an empty
`paths` list into a 500. -/
def textBody {Png : Type} (O : TextOracles Png) (sizeStr yStr : Str)
    (fontStyle mode : Option Str) (cleanText : Str) : HResp TextResponse :=
  let font := resolveFontP2 fontStyle
  if mode = some (("individual").toList) then
    let letters := cleanText.filter (fun c => !(trim [c] = [] : Bool))
    HResp.ok (TextResponse.indiv
      (indivLoop (fun c => combinedPipeline O font sizeStr yStr [c]) letters))
  else
    match combinedPipeline O font sizeStr yStr cleanText with
    | Except.error e => HResp.err e
    | Except.ok r =>
        if r.paths = [] then HResp.err couldNotMsg
        else HResp.ok (TextResponse.combined r)

/-- The `part_002` `/text-to-frame` handler (lines 160–201): reject a
missing, empty or whitespace-only text with 400 before anything runs;
otherwise clean the text (`text.trim().substring(0, 50)`) and dispatch on
the mode. -/
def textToFrameP2 {Png : Type} (O : TextOracles Png) (text : Option Str)
    (sizeStr yStr : Str) (fontStyle mode : Option Str) : HResp TextResponse :=
  match text with
  | none => HResp.bad noTextMsg
  | some t =>
      if t = [] then HResp.bad noTextMsg
      else if trim t = [] then HResp.bad noTextMsg
      else textBody O sizeStr yStr fontStyle mode ((trim t).take 50)

/-! ### Helper lemmas -/

theorem dropWhile_nil_iff (p : Char → Bool) :
    ∀ l : Str, l.dropWhile p = [] ↔ ∀ c ∈ l, p c = true := by
  intro l
  induction l with
  | nil => simp [List.dropWhile]
  | cons a l ih =>
      by_cases h : p a = true
      · simp [List.dropWhile, h, ih]
      · simp [List.dropWhile, h]

theorem mem_takeWhile_true (p : Char → Bool) :
    ∀ l : Str, ∀ c ∈ l.takeWhile p, p c = true := by
  intro l
  induction l with
  | nil => simp [List.takeWhile]
  | cons a l ih =>
      by_cases h : p a = true
      · intro c hc
        rw [List.takeWhile] at hc
        simp [h] at hc
        rcases hc with hc | hc
        · exact hc ▸ h
        · exact ih c hc
      · intro c hc
        rw [List.takeWhile] at hc
        simp [h] at hc

theorem trim_nil_iff (l : Str) : trim l = [] ↔ ∀ c ∈ l, isWsChar c = true := by
  unfold trim
  rw [List.reverse_eq_nil_iff, dropWhile_nil_iff]
  constructor
  · intro h c hc
    by_cases hw : isWsChar c = true
    · exact hw
    · exfalso
      have hmem : c ∈ l.dropWhile isWsChar := by
        have hsplit := List.takeWhile_append_dropWhile (p := isWsChar) (l := l)
        rcases List.mem_append.mp (by rw [hsplit]; exact hc) with h1 | h1
        · exact absurd (mem_takeWhile_true isWsChar l c h1) hw
        · exact h1
      exact hw (h c (List.mem_reverse.mpr hmem))
  · intro h c hc
    have hmem : c ∈ l.dropWhile isWsChar := List.mem_reverse.mp hc
    have hsplit := List.takeWhile_append_dropWhile (p := isWsChar) (l := l)
    exact h c (by rw [← hsplit]; exact List.mem_append.mpr (Or.inr hmem))

theorem trim_ne_of_append (cur : Str) (c : Char) (h : trim cur ≠ []) :
    trim (cur ++ [c]) ≠ [] := by
  intro hcontra
  apply h
  rw [trim_nil_iff] at hcontra ⊢
  intro x hx
  exact hcontra x (List.mem_append.mpr (Or.inl hx))

theorem trim_single (c : Char) (h : isWsChar c = false) : trim [c] = [c] := by
  unfold trim
  rw [List.dropWhile_cons]
  simp [h, List.dropWhile]

theorem head_dropWhile_false (p : Char → Bool) :
    ∀ (l : Str) (c : Char) (r : Str), l.dropWhile p = c :: r → p c = false := by
  intro l
  induction l with
  | nil => intro c r h; simp [List.dropWhile] at h
  | cons a l ih =>
      intro c r h
      by_cases ha : p a = true
      · rw [List.dropWhile_cons, if_pos ha] at h
        exact ih c r h
      · rw [List.dropWhile_cons, if_neg ha] at h
        cases h
        exact Bool.eq_false_iff.mpr ha

theorem dropWhile_eq_self_of_head (p : Char → Bool) (l : Str)
    (h : ∀ c r, l = c :: r → p c = false) : l.dropWhile p = l := by
  cases l with
  | nil => rfl
  | cons a l => rw [List.dropWhile_cons, if_neg (by simp [h a l rfl])]

theorem trim_head_false (l : Str) :
    ∀ c r, trim l = c :: r → isWsChar c = false := by
  intro c r h
  unfold trim at h
  have hsplit : (l.dropWhile isWsChar).reverse =
      (l.dropWhile isWsChar).reverse.takeWhile isWsChar ++
      (l.dropWhile isWsChar).reverse.dropWhile isWsChar :=
    (List.takeWhile_append_dropWhile (p := isWsChar)
      (l := (l.dropWhile isWsChar).reverse)).symm
  have hArev : l.dropWhile isWsChar =
      ((l.dropWhile isWsChar).reverse.dropWhile isWsChar).reverse ++
      ((l.dropWhile isWsChar).reverse.takeWhile isWsChar).reverse := by
    have h2 := congrArg List.reverse hsplit
    rw [List.reverse_reverse, List.reverse_append] at h2
    exact h2
  rw [h] at hArev
  exact head_dropWhile_false isWsChar l c _ hArev

theorem trim_rev_head_false (l : Str) :
    ∀ c r, (trim l).reverse = c :: r → isWsChar c = false := by
  intro c r h
  unfold trim at h
  rw [List.reverse_reverse] at h
  exact head_dropWhile_false isWsChar _ c r h

theorem trim_trim (l : Str) : trim (trim l) = trim l := by
  have h1 : (trim l).dropWhile isWsChar = trim l :=
    dropWhile_eq_self_of_head isWsChar _ (trim_head_false l)
  have h2 : (trim l).reverse.dropWhile isWsChar = (trim l).reverse :=
    dropWhile_eq_self_of_head isWsChar _ (trim_rev_head_false l)
  show ((((trim l).dropWhile isWsChar).reverse).dropWhile isWsChar).reverse = trim l
  rw [h1, h2, List.reverse_reverse]

/-- Occurrence of `p` as a contiguous segment of `d` (`p` is taken
verbatim from `d`, with nothing appended). -/
def SubSeg (p d : Str) : Prop := ∃ u v, d = u ++ p ++ v

theorem subSeg_dropWhile (q : Char → Bool) (l : Str) : SubSeg (l.dropWhile q) l :=
  ⟨l.takeWhile q, [], by rw [List.append_nil]; exact (List.takeWhile_append_dropWhile q l).symm⟩

theorem subSeg_trim (l : Str) : SubSeg (trim l) l := by
  obtain ⟨u, v, hA⟩ : SubSeg ((l.dropWhile isWsChar).reverse.dropWhile isWsChar)
      (l.dropWhile isWsChar).reverse := subSeg_dropWhile isWsChar _
  refine ⟨l.takeWhile isWsChar ++ v.reverse, u.reverse, ?_⟩
  have hl : l.dropWhile isWsChar = v.reverse ++ trim l ++ u.reverse := by
    have h2 := congrArg List.reverse hA
    rw [List.reverse_reverse, List.reverse_append, List.reverse_append] at h2
    rw [h2]
    unfold trim
    simp [List.append_assoc]
  calc l = l.takeWhile isWsChar ++ l.dropWhile isWsChar :=
        (List.takeWhile_append_dropWhile isWsChar l).symm
    _ = l.takeWhile isWsChar ++ (v.reverse ++ trim l ++ u.reverse) := by rw [← hl]
    _ = (l.takeWhile isWsChar ++ v.reverse) ++ trim l ++ u.reverse := by
        simp [List.append_assoc]

theorem subSeg_jsSlice (d : Str) (s e : Nat) : SubSeg (jsSlice d s e) d :=
  ⟨(d.take e).take s, d.drop e, by
    unfold jsSlice
    rw [List.take_append_drop, List.take_append_drop]⟩

theorem subSeg_trans (p q d : Str) (h1 : SubSeg p q) (h2 : SubSeg q d) : SubSeg p d := by
  obtain ⟨u1, v1, hq⟩ := h1
  obtain ⟨u2, v2, hd⟩ := h2
  exact ⟨u2 ++ u1, v1 ++ v2, by rw [hd, hq]; simp [List.append_assoc]⟩

/-! Counting subpath starts. -/

theorem cntMove_append (a b : Str) : cntMove (a ++ b) = cntMove a + cntMove b := by
  induction a with
  | nil => simp [cntMove]
  | cons c r ih => simp [cntMove, ih]; omega

theorem cntMove_reverse (l : Str) : cntMove l.reverse = cntMove l := by
  induction l with
  | nil => rfl
  | cons c r ih => simp [cntMove, List.reverse_cons, cntMove_append, ih]; omega

theorem cntMove_eq_zero_of_ws (l : Str) (h : ∀ c ∈ l, isWsChar c = true) :
    cntMove l = 0 := by
  induction l with
  | nil => rfl
  | cons c r ih =>
      have hc : isWsChar c = true := h c (List.mem_cons_self c r)
      have hm : isMove c = false := by
        unfold isWsChar at hc
        simp only [Bool.or_eq_true, decide_eq_true_eq] at hc
        rcases hc with ((((h1 | h1) | h1) | h1) | h1) | h1 <;> subst h1 <;> decide
      simp [cntMove, hm, ih (fun x hx => h x (List.mem_cons_of_mem c hx))]

theorem cntMove_dropWhile_ws (l : Str) :
    cntMove (l.dropWhile isWsChar) = cntMove l := by
  conv_rhs => rw [← List.takeWhile_append_dropWhile (p := isWsChar) (l := l)]
  rw [cntMove_append, cntMove_eq_zero_of_ws _ (mem_takeWhile_true isWsChar l)]
  omega

theorem cntMove_trim (l : Str) : cntMove (trim l) = cntMove l := by
  unfold trim
  rw [cntMove_reverse, cntMove_dropWhile_ws, cntMove_reverse, cntMove_dropWhile_ws]

theorem move_not_ws (c : Char) (h : isMove c = true) : isWsChar c = false := by
  unfold isMove at h
  rcases (by simpa using h : c = 'M' ∨ c = 'm') with h1 | h1 <;> simp [isWsChar, h1]

/-! The `splitToSingleMovePaths` part loop. -/

theorem splitPartsAux_len (rest : Str) :
    ∀ cur, trim cur ≠ [] → (splitPartsAux rest cur).length = cntMove rest + 1 := by
  induction rest with
  | nil => intro cur h; simp [splitPartsAux, h, cntMove]
  | cons c r ih =>
      intro cur h
      by_cases hm : isMove c = true
      · rw [splitPartsAux, if_pos ⟨hm, h⟩]
        have hc : trim [c] ≠ [] := by
          rw [trim_single c (move_not_ws c hm)]; simp
        simp [cntMove, hm, List.length_cons, ih [c] hc]
        omega
      · rw [splitPartsAux, if_neg (by simp [hm])]
        rw [ih (cur ++ [c]) (trim_ne_of_append cur c h)]
        simp [cntMove, hm]

theorem splitPartsAux_head_move (d : Str) (c : Char) (r : Str)
    (hd : d = c :: r) (hm : isMove c = true) :
    (splitPartsAux d []).length = cntMove d := by
  subst hd
  rw [splitPartsAux, if_neg (by simp [trim])]
  have hc : trim [c] ≠ [] := by
    rw [trim_single c (move_not_ws c hm)]; simp
  show (splitPartsAux r ([] ++ [c])).length = cntMove (c :: r)
  rw [List.nil_append, splitPartsAux_len r [c] hc]
  simp [cntMove, hm]
  omega

theorem splitPartsAux_mem_trim (rest : Str) :
    ∀ cur p, p ∈ splitPartsAux rest cur → trim p = p := by
  induction rest with
  | nil =>
      intro cur p hp
      rw [splitPartsAux] at hp
      by_cases h : trim cur = []
      · simp [h] at hp
      · rw [if_neg h] at hp
        rcases List.mem_singleton.mp hp with rfl
        exact trim_trim cur
  | cons c r ih =>
      intro cur p hp
      rw [splitPartsAux] at hp
      by_cases h : isMove c = true ∧ trim cur ≠ []
      · rw [if_pos h] at hp
        rcases List.mem_cons.mp hp with rfl | hp2
        · exact trim_trim cur
        · exact ih [c] p hp2
      · rw [if_neg h] at hp
        exact ih (cur ++ [c]) p hp

/-! The cap loops. -/

theorem innerGo_spec {α : Type} (limit : Nat) :
    ∀ (subs : List α) (k : Nat), k < limit →
      (innerGo limit subs k).2 = k + (innerGo limit subs k).1.length ∧
      (innerGo limit subs k).2 ≤ limit := by
  intro subs
  induction subs with
  | nil => intro k hk; simp [innerGo]; omega
  | cons s rest ih =>
      intro k hk
      by_cases h : limit ≤ k + 1
      · rw [innerGo, if_pos h]
        constructor
        · simp
        · simpa using hk
      · rw [innerGo, if_neg h]
        obtain ⟨h1, h2⟩ := ih (k + 1) (by omega)
        constructor
        · simp [h1]; omega
        · simpa using h2

theorem innerGo_full {α : Type} (limit : Nat) :
    ∀ (subs : List α) (k : Nat), k + subs.length ≤ limit →
      innerGo limit subs k = (subs, k + subs.length) := by
  intro subs
  induction subs with
  | nil => intro k hk; simp [innerGo]
  | cons s rest ih =>
      intro k hk
      simp only [List.length_cons] at hk
      by_cases h : limit ≤ k + 1
      · have hrest : rest = [] := List.length_eq_zero.mp (by omega)
        subst hrest
        rw [innerGo, if_pos h]
        simp
      · rw [innerGo, if_neg h]
        rw [ih (k + 1) (by omega)]
        simp
        omega

theorem outerGo_len (split : Str → List Str) (limit : Nat) :
    ∀ (l : List Str) (k : Nat), k < limit →
      k + (outerGo split limit l k).length ≤ limit := by
  intro l
  induction l with
  | nil => intro k hk; simp [outerGo]; omega
  | cons d rest ih =>
      intro k hk
      obtain ⟨h1, h2⟩ := innerGo_spec limit (split d) k hk
      rw [outerGo]
      by_cases h : limit ≤ (innerGo limit (split d) k).2
      · rw [if_pos h]; omega
      · rw [if_neg h]
        have h3 := ih (innerGo limit (split d) k).2 (by omega)
        simp only [List.length_append]
        omega

theorem outerGo_stable (split : Str → List Str) (limit : Nat) :
    ∀ (l1 l2 : List Str) (k : Nat), k < limit →
      k + (outerGo split limit l1 k).length = limit →
      outerGo split limit (l1 ++ l2) k = outerGo split limit l1 k := by
  intro l1
  induction l1 with
  | nil =>
      intro l2 k hk hlen
      rw [outerGo] at hlen
      simp at hlen
      omega
  | cons d rest ih =>
      intro l2 k hk hlen
      obtain ⟨h1, h2⟩ := innerGo_spec limit (split d) k hk
      rw [outerGo] at hlen ⊢
      rw [List.cons_append, outerGo]
      by_cases h : limit ≤ (innerGo limit (split d) k).2
      · rw [if_pos h] at hlen ⊢
        rw [if_pos h]
      · rw [if_neg h] at hlen ⊢
        rw [if_neg h]
        congr 1
        apply ih l2 (innerGo limit (split d) k).2 (by omega)
        simp only [List.length_append] at hlen
        omega

theorem compoundGo_len (limit : Nat) :
    ∀ (l : List Str) (k : Nat), k < limit →
      k + (compoundGo limit l k).length ≤ limit := by
  intro l
  induction l with
  | nil => intro k hk; simp [compoundGo]; omega
  | cons d rest ih =>
      intro k hk
      rw [compoundGo]
      by_cases h0 : trim d = []
      · rw [if_pos h0]; exact ih k hk
      · rw [if_neg h0]
        by_cases h : limit ≤ k + 1
        · rw [if_pos h]; simp; omega
        · rw [if_neg h]
          have h3 := ih (k + 1) (by omega)
          simp only [List.length_cons]
          omega

theorem compoundGo_stable (limit : Nat) :
    ∀ (l1 l2 : List Str) (k : Nat), k < limit →
      k + (compoundGo limit l1 k).length = limit →
      compoundGo limit (l1 ++ l2) k = compoundGo limit l1 k := by
  intro l1
  induction l1 with
  | nil =>
      intro l2 k hk hlen
      rw [compoundGo] at hlen
      simp at hlen
      omega
  | cons d rest ih =>
      intro l2 k hk hlen
      rw [compoundGo] at hlen ⊢
      rw [List.cons_append, compoundGo]
      by_cases h0 : trim d = []
      · rw [if_pos h0] at hlen ⊢
        rw [if_pos h0]
        exact ih l2 k hk hlen
      · rw [if_neg h0] at hlen ⊢
        rw [if_neg h0]
        by_cases h : limit ≤ k + 1
        · rw [if_pos h] at hlen ⊢
          rw [if_pos h]
        · rw [if_neg h] at hlen ⊢
          rw [if_neg h]
          congr 1
          apply ih l2 (k + 1) (by omega)
          simp only [List.length_cons] at hlen
          omega

/-! The index array of `extractSubpaths`. -/

theorem moveIdxAux_len (l : Str) :
    ∀ i, (moveIdxAux l i).length = cntMove l := by
  induction l with
  | nil => intro i; rfl
  | cons c r ih =>
      intro i
      by_cases h : isMove c = true
      · simp [moveIdxAux, h, cntMove, ih]; omega
      · simp [moveIdxAux, h, cntMove, ih]

/-! Result-list accumulation. -/

theorem foldl_push_map {β γ : Type} (g : β → γ) :
    ∀ (l : List β) (acc : List γ),
      l.foldl (fun a b => a ++ [g b]) acc = acc ++ l.map g := by
  intro l
  induction l with
  | nil => intro acc; simp
  | cons b l ih => intro acc; simp [ih, List.append_assoc]

theorem batchLoop_eq_map {α : Type} (pipe : α → Except Str ExtractResult)
    (files : List (Str × α)) :
    batchLoop pipe files = files.map (fun f =>
      match pipe f.2 with
      | Except.ok r => BatchEntry.ok f.1 r
      | Except.error e => BatchEntry.err f.1 e) := by
  unfold batchLoop
  rw [foldl_push_map]
  rfl

theorem indivLoop_eq_map (pipe : Char → Except Str ExtractResult)
    (letters : List Char) :
    indivLoop pipe letters = letters.map (fun c =>
      match pipe c with
      | Except.ok r => LetterEntry.ok c r
      | Except.error e => LetterEntry.err c [] e) := by
  unfold indivLoop
  rw [foldl_push_map]
  rfl

/-! The shape recognised by the viewBox regex. -/

theorem tok_not_ws (c : Char) (h : isTokChar c = true) : isWsChar c = false := by
  cases hws : isWsChar c
  · rfl
  · exfalso
    unfold isWsChar at hws
    simp only [Bool.or_eq_true, decide_eq_true_eq] at hws
    rcases hws with ((((h1 | h1) | h1) | h1) | h1) | h1 <;> subst h1 <;>
      exact absurd h (by decide)

theorem ws_not_tok (c : Char) (h : isWsChar c = true) : isTokChar c = false := by
  cases htk : isTokChar c
  · rfl
  · exact absurd h (by rw [tok_not_ws c htk]; simp)

theorem tw_dw_append (p : Char → Bool) (t r : Str)
    (ht : ∀ c ∈ t, p c = true)
    (hr : ∀ c s, r = c :: s → p c = false) :
    (t ++ r).takeWhile p = t ∧ (t ++ r).dropWhile p = r := by
  induction t with
  | nil =>
      simp only [List.nil_append]
      cases r with
      | nil => simp [List.takeWhile, List.dropWhile]
      | cons c s =>
          have hc := hr c s rfl
          constructor
          · rw [List.takeWhile_cons, if_neg (by simp [hc])]
          · rw [List.dropWhile_cons, if_neg (by simp [hc])]
  | cons a t ih =>
      have ha : p a = true := ht a (List.mem_cons_self a t)
      obtain ⟨ih1, ih2⟩ := ih (fun c hc => ht c (List.mem_cons_of_mem a hc))
      constructor
      · rw [List.cons_append, List.takeWhile_cons, if_pos ha, ih1]
      · rw [List.cons_append, List.dropWhile_cons, if_pos ha, ih2]

theorem head_false_of_head_true (p q : Char → Bool) (x : Char) (xs y : Str)
    (hx : q x = true) (himp : ∀ c, q c = true → p c = false) :
    ∀ c s, (x :: xs) ++ y = c :: s → p c = false := by
  intro c s h
  rw [List.cons_append] at h
  cases h
  exact himp x hx

/-- Side conditions of the regex: seven nonempty runs, tokens in
`[\d.\-]`, separators in `\s`. -/
def VbParts (t1 w1 t2 w2 t3 w3 t4 : Str) : Prop :=
  t1 ≠ [] ∧ t2 ≠ [] ∧ t3 ≠ [] ∧ t4 ≠ [] ∧ w1 ≠ [] ∧ w2 ≠ [] ∧ w3 ≠ [] ∧
  (∀ c ∈ t1, isTokChar c = true) ∧ (∀ c ∈ t2, isTokChar c = true) ∧
  (∀ c ∈ t3, isTokChar c = true) ∧ (∀ c ∈ t4, isTokChar c = true) ∧
  (∀ c ∈ w1, isWsChar c = true) ∧ (∀ c ∈ w2, isWsChar c = true) ∧
  (∀ c ∈ w3, isWsChar c = true)

instance (t1 w1 t2 w2 t3 w3 t4 : Str) : Decidable (VbParts t1 w1 t2 w2 t3 w3 t4) := by
  unfold VbParts
  infer_instance

/-- A viewBox attribute content of exactly the form the regex accepts:
four `[\d.\-]+` tokens separated by `\s+` runs. -/
def VbShape (c : Str) : Prop := ∃ t1 w1 t2 w2 t3 w3 t4,
  VbParts t1 w1 t2 w2 t3 w3 t4 ∧
  c = t1 ++ (w1 ++ (t2 ++ (w2 ++ (t3 ++ (w3 ++ t4)))))

theorem vbMatch_of_parts (t1 w1 t2 w2 t3 w3 t4 : Str)
    (h : VbParts t1 w1 t2 w2 t3 w3 t4) :
    vbMatch (t1 ++ (w1 ++ (t2 ++ (w2 ++ (t3 ++ (w3 ++ t4)))))) =
      some (t1, t2, t3, t4) := by
  obtain ⟨ht1, ht2, ht3, ht4, hw1, hw2, hw3, pt1, pt2, pt3, pt4, pw1, pw2, pw3⟩ := h
  obtain ⟨a1, w1r, rfl⟩ : ∃ x xs, w1 = x :: xs := by
    cases w1 with
    | nil => exact absurd rfl hw1
    | cons x xs => exact ⟨x, xs, rfl⟩
  obtain ⟨b2, t2r, rfl⟩ : ∃ x xs, t2 = x :: xs := by
    cases t2 with
    | nil => exact absurd rfl ht2
    | cons x xs => exact ⟨x, xs, rfl⟩
  obtain ⟨a2, w2r, rfl⟩ : ∃ x xs, w2 = x :: xs := by
    cases w2 with
    | nil => exact absurd rfl hw2
    | cons x xs => exact ⟨x, xs, rfl⟩
  obtain ⟨b3, t3r, rfl⟩ : ∃ x xs, t3 = x :: xs := by
    cases t3 with
    | nil => exact absurd rfl ht3
    | cons x xs => exact ⟨x, xs, rfl⟩
  obtain ⟨a3, w3r, rfl⟩ : ∃ x xs, w3 = x :: xs := by
    cases w3 with
    | nil => exact absurd rfl hw3
    | cons x xs => exact ⟨x, xs, rfl⟩
  obtain ⟨b4, t4r, rfl⟩ : ∃ x xs, t4 = x :: xs := by
    cases t4 with
    | nil => exact absurd rfl ht4
    | cons x xs => exact ⟨x, xs, rfl⟩
  obtain ⟨s1t, s1d⟩ := tw_dw_append isTokChar t1 _ pt1
    (head_false_of_head_true isTokChar isWsChar a1 w1r _
      (pw1 a1 (List.mem_cons_self a1 w1r)) ws_not_tok)
  obtain ⟨s2t, s2d⟩ := tw_dw_append isWsChar (a1 :: w1r) _ pw1
    (head_false_of_head_true isWsChar isTokChar b2 t2r _
      (pt2 b2 (List.mem_cons_self b2 t2r)) tok_not_ws)
  obtain ⟨s3t, s3d⟩ := tw_dw_append isTokChar (b2 :: t2r) _ pt2
    (head_false_of_head_true isTokChar isWsChar a2 w2r _
      (pw2 a2 (List.mem_cons_self a2 w2r)) ws_not_tok)
  obtain ⟨s4t, s4d⟩ := tw_dw_append isWsChar (a2 :: w2r) _ pw2
    (head_false_of_head_true isWsChar isTokChar b3 t3r _
      (pt3 b3 (List.mem_cons_self b3 t3r)) tok_not_ws)
  obtain ⟨s5t, s5d⟩ := tw_dw_append isTokChar (b3 :: t3r) _ pt3
    (head_false_of_head_true isTokChar isWsChar a3 w3r _
      (pw3 a3 (List.mem_cons_self a3 w3r)) ws_not_tok)
  obtain ⟨s6t, s6d⟩ := tw_dw_append isWsChar (a3 :: w3r) (b4 :: t4r) pw3
    (by
      intro c s hcs
      cases hcs
      exact tok_not_ws b4 (pt4 b4 (List.mem_cons_self b4 t4r)))
  have s7 := tw_dw_append isTokChar (b4 :: t4r) [] pt4 (by intro c s h; simp at h)
  rw [List.append_nil] at s7
  obtain ⟨s7t, s7d⟩ := s7
  unfold vbMatch
  rw [s1t, s1d, if_neg ht1, s2t, s2d, if_neg hw1, s3t, s3d, if_neg ht2,
    s4t, s4d, if_neg hw2, s5t, s5d, if_neg ht3, s6t, s6d, if_neg hw3,
    s7t, s7d, if_neg ht4, if_pos rfl]

theorem vbShape_of_vbMatch (c : Str) (q : Str × Str × Str × Str)
    (h : vbMatch c = some q) : VbShape c := by
  unfold vbMatch at h
  dsimp only at h
  set t1 := c.takeWhile isTokChar with e1
  set r1 := c.dropWhile isTokChar with e2
  set w1 := r1.takeWhile isWsChar with e3
  set r2 := r1.dropWhile isWsChar with e4
  set t2 := r2.takeWhile isTokChar with e5
  set r3 := r2.dropWhile isTokChar with e6
  set w2 := r3.takeWhile isWsChar with e7
  set r4 := r3.dropWhile isWsChar with e8
  set t3 := r4.takeWhile isTokChar with e9
  set r5 := r4.dropWhile isTokChar with e10
  set w3 := r5.takeWhile isWsChar with e11
  set r6 := r5.dropWhile isWsChar with e12
  set t4 := r6.takeWhile isTokChar with e13
  set r7 := r6.dropWhile isTokChar with e14
  split_ifs at h with g1 g2 g3 g4 g5 g6 g7 g8
  try simp at h
  have hc : c = t1 ++ r1 := by
    rw [e1, e2]; exact (List.takeWhile_append_dropWhile isTokChar c).symm
  have hr1 : r1 = w1 ++ r2 := by
    rw [e3, e4]; exact (List.takeWhile_append_dropWhile isWsChar r1).symm
  have hr2 : r2 = t2 ++ r3 := by
    rw [e5, e6]; exact (List.takeWhile_append_dropWhile isTokChar r2).symm
  have hr3 : r3 = w2 ++ r4 := by
    rw [e7, e8]; exact (List.takeWhile_append_dropWhile isWsChar r3).symm
  have hr4 : r4 = t3 ++ r5 := by
    rw [e9, e10]; exact (List.takeWhile_append_dropWhile isTokChar r4).symm
  have hr5 : r5 = w3 ++ r6 := by
    rw [e11, e12]; exact (List.takeWhile_append_dropWhile isWsChar r5).symm
  have hr6 : r6 = t4 ++ r7 := by
    rw [e13, e14]; exact (List.takeWhile_append_dropWhile isTokChar r6).symm
  refine ⟨t1, w1, t2, w2, t3, w3, t4,
    ⟨g1, g3, g5, g7, g2, g4, g6,
      by rw [e1]; exact mem_takeWhile_true isTokChar c,
      by rw [e5]; exact mem_takeWhile_true isTokChar r2,
      by rw [e9]; exact mem_takeWhile_true isTokChar r4,
      by rw [e13]; exact mem_takeWhile_true isTokChar r6,
      by rw [e3]; exact mem_takeWhile_true isWsChar r1,
      by rw [e7]; exact mem_takeWhile_true isWsChar r3,
      by rw [e11]; exact mem_takeWhile_true isWsChar r5⟩, ?_⟩
  rw [hc, hr1, hr2, hr3, hr4, hr5, hr6, g8, List.append_nil]

theorem vbMatch_none_iff (c : Str) : vbMatch c = none ↔ ¬ VbShape c := by
  constructor
  · intro h hs
    obtain ⟨t1, w1, t2, w2, t3, w3, t4, hp, rfl⟩ := hs
    rw [vbMatch_of_parts t1 w1 t2 w2 t3 w3 t4 hp] at h
    simp at h
  · intro h
    cases hm : vbMatch c with
    | none => rfl
    | some q => exact absurd (vbShape_of_vbMatch c q hm) h

/-! Handler helpers. -/

theorem textToFrameP2_blank {Png : Type} (O : TextOracles Png)
    (sizeStr yStr : Str) (fontStyle mode : Option Str) (t : Str)
    (h : trim t = []) :
    textToFrameP2 O (some t) sizeStr yStr fontStyle mode = HResp.bad noTextMsg := by
  unfold textToFrameP2
  dsimp only
  by_cases ht : t = []
  · rw [if_pos ht]
  · rw [if_neg ht, if_pos h]

theorem take_nil_iff_nil (l : Str) : l.take 50 = [] ↔ l = [] := by
  cases l with
  | nil => simp
  | cons c r => simp [List.take_succ_cons]

theorem take100_nil_iff_nil (l : Str) : l.take 100 = [] ↔ l = [] := by
  cases l with
  | nil => simp
  | cons c r => simp [List.take_succ_cons]

theorem filter_eq_self_of_all {α : Type} (p : α → Bool) (l : List α)
    (h : ∀ a ∈ l, p a = true) : l.filter p = l := by
  induction l with
  | nil => rfl
  | cons a l ih =>
      rw [List.filter_cons, if_pos (h a (List.mem_cons_self a l))]
      rw [ih (fun x hx => h x (List.mem_cons_of_mem a hx))]

theorem piecesAux_subSeg (d : Str) : ∀ idx p, p ∈ piecesAux d idx → SubSeg p d := by
  intro idx
  induction idx with
  | nil => intro p hp; simp [piecesAux] at hp
  | cons i rest ih =>
      cases rest with
      | nil =>
          intro p hp
          by_cases h : trim (jsSlice d i d.length) = []
          · simp [piecesAux, h] at hp
          · rw [piecesAux, if_neg h] at hp
            rcases List.mem_singleton.mp hp with rfl
            exact subSeg_trans _ _ _ (subSeg_trim _) (subSeg_jsSlice d i d.length)
      | cons j rest2 =>
          intro p hp
          rw [piecesAux] at hp
          rcases List.mem_append.mp hp with h1 | h1
          · by_cases h : trim (jsSlice d i j) = []
            · simp [h] at h1
            · rw [if_neg h] at h1
              rcases List.mem_singleton.mp h1 with rfl
              exact subSeg_trans _ _ _ (subSeg_trim _) (subSeg_jsSlice d i j)
          · exact ih p h1

/-! ### Claim theorems -/

/-- Claim C10 (confirmed): in flatten mode, a path-data string containing
at most one subpath-start command — including none at all — is returned
whole (trimmed) as a single PathRecord; it is never validated to begin
with a moveto and is not discarded for lacking one. -/
theorem c10_single_move_kept (d : Str) (h : cntMove d ≤ 1)
    (vb : Option Str) (cap : Nat) (hcap : 1 ≤ cap) :
    extractSubpaths d = [trim d] ∧
    (extractPathsServer ⟨vb, [d]⟩ cap).paths = [trim d] := by
  have hidx : (moveIdx d).length ≤ 1 := by
    rw [moveIdx, moveIdxAux_len]; exact h
  have h1 : extractSubpaths d = [trim d] := by
    unfold extractSubpaths
    rw [if_pos hidx]
  refine ⟨h1, ?_⟩
  show outerGo extractSubpaths cap [d] 0 = [trim d]
  have h2 : innerGo cap [trim d] 0 = ([trim d], 0 + [trim d].length) :=
    innerGo_full cap [trim d] 0 (by simpa using hcap)
  rw [outerGo, h1, h2]
  by_cases hc : cap ≤ 0 + [trim d].length
  · rw [if_pos hc]
  · rw [if_neg hc, outerGo, List.append_nil]

/-- Witness for C10 at a path-data string with no subpath-start
command. -/
theorem c10_single_move_kept_witness :
    (cntMove (("L5 5 Z").toList) ≤ 1 ∧ 1 ≤ (200 : Nat)) ∧
    (extractSubpaths (("L5 5 Z").toList) = [trim (("L5 5 Z").toList)] ∧
     (extractPathsServer ⟨none, [("L5 5 Z").toList]⟩ 200).paths =
       [trim (("L5 5 Z").toList)]) :=
  ⟨⟨by decide, by decide⟩,
   c10_single_move_kept (("L5 5 Z").toList) (by decide) none 200 (by decide)⟩

/-- Claim C2 (amended): for every traced document, both flatten splitters
and the compound loop, and every cap of at least 1, the number of emitted
PathRecords is at most the cap, and once the result has reached the cap,
appending further path-data strings to the document does not change the
result (the cap is enforced while scanning, not by truncation). -/
theorem c2_cap_amended (split : Str → List Str) (limit : Nat) (hl : 1 ≤ limit)
    (doc extra : List Str) (D : SvgDoc) :
    (outerGo split limit doc 0).length ≤ limit
    ∧ ((outerGo split limit doc 0).length = limit →
        outerGo split limit (doc ++ extra) 0 = outerGo split limit doc 0)
    ∧ (compoundGo limit doc 0).length ≤ limit
    ∧ ((compoundGo limit doc 0).length = limit →
        compoundGo limit (doc ++ extra) 0 = compoundGo limit doc 0)
    ∧ (extractPathsP2 D limit).paths.length ≤ limit
    ∧ (extractPathsServer D limit).paths.length ≤ limit
    ∧ (extractCompoundPaths D limit).paths.length ≤ limit := by
  have h0 : 0 < limit := hl
  refine ⟨?_, ?_, ?_, ?_, ?_, ?_, ?_⟩
  · have h := outerGo_len split limit doc 0 h0; omega
  · intro hlen
    exact outerGo_stable split limit doc extra 0 h0 (by omega)
  · have h := compoundGo_len limit doc 0 h0; omega
  · intro hlen
    exact compoundGo_stable limit doc extra 0 h0 (by omega)
  · have h := outerGo_len (fun d => splitToSingleMovePaths (trim d)) limit D.pathDs 0 h0
    show (outerGo (fun d => splitToSingleMovePaths (trim d)) limit D.pathDs 0).length ≤ limit
    omega
  · have h := outerGo_len extractSubpaths limit D.pathDs 0 h0
    show (outerGo extractSubpaths limit D.pathDs 0).length ≤ limit
    omega
  · have h := compoundGo_len limit D.pathDs 0 h0
    show (compoundGo limit D.pathDs 0).length ≤ limit
    omega

/-- Counterexample to C2 as stated: at cap 0 the loop pushes one record
before checking the cap, so the bound fails for that cap value. -/
theorem c2_cap_counterexample :
    ¬ ((extractPathsP2 ⟨none, [("M0 0 L5 5").toList]⟩ 0).paths.length ≤ 0) := by
  decide

/-- Witness for the amended C2 at a concrete document and cap 1. -/
theorem c2_cap_amended_witness :
    (1 ≤ (1 : Nat)) ∧
    ((outerGo extractSubpaths 1 [("M1 2 3").toList] 0).length ≤ 1
    ∧ ((outerGo extractSubpaths 1 [("M1 2 3").toList] 0).length = 1 →
        outerGo extractSubpaths 1 ([("M1 2 3").toList] ++ [("M9 9").toList]) 0 =
          outerGo extractSubpaths 1 [("M1 2 3").toList] 0)
    ∧ (compoundGo 1 [("M1 2 3").toList] 0).length ≤ 1
    ∧ ((compoundGo 1 [("M1 2 3").toList] 0).length = 1 →
        compoundGo 1 ([("M1 2 3").toList] ++ [("M9 9").toList]) 0 =
          compoundGo 1 [("M1 2 3").toList] 0)
    ∧ (extractPathsP2 ⟨none, [("M0 0 L5 5").toList]⟩ 1).paths.length ≤ 1
    ∧ (extractPathsServer ⟨none, [("M0 0 L5 5").toList]⟩ 1).paths.length ≤ 1
    ∧ (extractCompoundPaths ⟨none, [("M0 0 L5 5").toList]⟩ 1).paths.length ≤ 1) :=
  ⟨by decide,
   c2_cap_amended extractSubpaths 1 (by decide) [("M1 2 3").toList]
     [("M9 9").toList] ⟨none, [("M0 0 L5 5").toList]⟩⟩

/-- Claim C1 (confirmed): a document holding one path-data string with
exactly two subpath starts (a glyph with one hole, e.g. "O"): compound
mode emits exactly 1 PathRecord still containing both subpath starts;
flatten mode (`part_002`) emits exactly 2 PathRecords, for any cap of at
least 2.  The hypotheses state that the string is valid path data: it is
trimmed, begins with a moveto, and each of its subpath fragments is
longer than the 3-character noise filter (any syntactically valid moveto
needs at least 4 characters). -/
theorem c1_hole_modes (attr : Option Str) (d : Str) (cap : Nat)
    (hhead : d.head? = some 'M' ∨ d.head? = some 'm')
    (htrim : trim d = d)
    (hcnt : cntMove d = 2)
    (hfrag : ∀ p ∈ splitPartsAux d [], 3 < p.length)
    (hcap : 2 ≤ cap) :
    (extractCompoundPaths ⟨attr, [d]⟩ cap).paths.length = 1
    ∧ (∀ p ∈ (extractCompoundPaths ⟨attr, [d]⟩ cap).paths, cntMove p = 2)
    ∧ (extractPathsP2 ⟨attr, [d]⟩ cap).paths.length = 2 := by
  obtain ⟨c, r, rfl⟩ : ∃ c r, d = c :: r := by
    cases d with
    | nil => rcases hhead with h | h <;> simp at h
    | cons c r => exact ⟨c, r, rfl⟩
  have hm : isMove c = true := by
    rcases hhead with h | h <;>
      · simp only [List.head?_cons, Option.some_inj] at h
        subst h
        decide
  have hco : compoundGo cap [c :: r] 0 = [c :: r] := by
    rw [compoundGo, htrim]
    rw [if_neg (by simp), if_neg (by omega)]
    rfl
  have hcompound : (extractCompoundPaths ⟨attr, [c :: r]⟩ cap).paths = [c :: r] := by
    show compoundGo cap [c :: r] 0 = [c :: r]
    exact hco
  have hsubs : (splitToSingleMovePaths (c :: r)).length = 2 := by
    unfold splitToSingleMovePaths
    rw [filter_eq_self_of_all _ _ (by intro a ha; simpa using hfrag a ha)]
    rw [List.length_map, splitPartsAux_head_move (c :: r) c r rfl hm, hcnt]
  refine ⟨by rw [hcompound]; rfl, ?_, ?_⟩
  · intro p hp
    rw [hcompound] at hp
    rcases List.mem_singleton.mp hp with rfl
    exact hcnt
  · show (outerGo (fun x => splitToSingleMovePaths (trim x)) cap [c :: r] 0).length = 2
    have h2 : innerGo cap (splitToSingleMovePaths (trim (c :: r))) 0 =
        (splitToSingleMovePaths (trim (c :: r)),
         0 + (splitToSingleMovePaths (trim (c :: r))).length) :=
      innerGo_full cap _ 0 (by rw [htrim, hsubs]; omega)
    rw [outerGo, h2]
    by_cases hc2 : cap ≤ 0 + (splitToSingleMovePaths (trim (c :: r))).length
    · rw [if_pos hc2, htrim, hsubs]
    · rw [if_neg hc2, outerGo, List.append_nil, htrim, hsubs]

/-- Witness for C1 at a two-subpath glyph-like path string with cap 2. -/
theorem c1_hole_modes_witness :
    ((("M0 0 L8 0 L8 8 Z m2 2 l3 0 l0 3 z").toList.head? = some 'M' ∨
      ("M0 0 L8 0 L8 8 Z m2 2 l3 0 l0 3 z").toList.head? = some 'm')
     ∧ trim (("M0 0 L8 0 L8 8 Z m2 2 l3 0 l0 3 z").toList) =
         ("M0 0 L8 0 L8 8 Z m2 2 l3 0 l0 3 z").toList
     ∧ cntMove (("M0 0 L8 0 L8 8 Z m2 2 l3 0 l0 3 z").toList) = 2
     ∧ (∀ p ∈ splitPartsAux (("M0 0 L8 0 L8 8 Z m2 2 l3 0 l0 3 z").toList) [],
          3 < p.length)
     ∧ 2 ≤ (2 : Nat)) ∧
    ((extractCompoundPaths ⟨none, [("M0 0 L8 0 L8 8 Z m2 2 l3 0 l0 3 z").toList]⟩ 2).paths.length = 1
    ∧ (∀ p ∈ (extractCompoundPaths ⟨none, [("M0 0 L8 0 L8 8 Z m2 2 l3 0 l0 3 z").toList]⟩ 2).paths,
         cntMove p = 2)
    ∧ (extractPathsP2 ⟨none, [("M0 0 L8 0 L8 8 Z m2 2 l3 0 l0 3 z").toList]⟩ 2).paths.length = 2) :=
  ⟨⟨by decide, by decide, by decide, by decide, by decide⟩,
   c1_hole_modes none (("M0 0 L8 0 L8 8 Z m2 2 l3 0 l0 3 z").toList) 2
     (by decide) (by decide) (by decide) (by decide) (by decide)⟩

/-- Claim C4 (amended): the `part_002` flatten splitter appends a close
command (every emitted record ends in `Z`/`z`) and discards every
fragment of length at most 3 (so also every empty one); the
`src/server/index.js` flatten splitter emits only verbatim trimmed slices
of the input and never appends a close command. -/
theorem c4_flatten_amended :
    (∀ d p, p ∈ splitToSingleMovePaths d →
        (p.getLast? = some 'Z' ∨ p.getLast? = some 'z'))
    ∧ (∀ d p, p ∈ splitToSingleMovePaths d → 3 < p.length)
    ∧ (∀ d p, p ∈ extractSubpaths d → SubSeg p d) := by
  refine ⟨?_, ?_, ?_⟩
  · intro d p hp
    unfold splitToSingleMovePaths at hp
    obtain ⟨q, _, rfl⟩ := List.mem_map.mp hp
    unfold closeZ
    by_cases hb : (trim q).getLast? = some 'Z' ∨ (trim q).getLast? = some 'z'
    · rw [if_pos hb]
      exact hb
    · rw [if_neg hb]
      left
      show (trim q ++ ([' '] ++ ['Z'])).getLast? = some 'Z'
      rw [← List.append_assoc]
      exact List.getLast?_concat ..
  · intro d p hp
    unfold splitToSingleMovePaths at hp
    obtain ⟨q, hq, rfl⟩ := List.mem_map.mp hp
    obtain ⟨hqmem, hqlen⟩ := List.mem_filter.mp hq
    have hql : 3 < q.length := by simpa using hqlen
    have hqt : trim q = q := splitPartsAux_mem_trim d [] q hqmem
    unfold closeZ
    by_cases hb : (trim q).getLast? = some 'Z' ∨ (trim q).getLast? = some 'z'
    · rw [if_pos hb, hqt]; exact hql
    · rw [if_neg hb, hqt]
      simp only [List.length_append]
      omega
  · intro d p hp
    unfold extractSubpaths at hp
    by_cases h : (moveIdx d).length ≤ 1
    · rw [if_pos h] at hp
      rcases List.mem_singleton.mp hp with rfl
      exact subSeg_trim d
    · rw [if_neg h] at hp
      exact piecesAux_subSeg d (moveIdx d) p (List.mem_filter.mp hp).1

/-- Counterexample to C4 as stated: the `src/server/index.js` flatten
splitter emits a record with no trailing close command, and the
`part_002` splitter discards a nonempty 2-character fragment, emitting
one record for a string with two subpath starts. -/
theorem c4_flatten_counterexample :
    ((("M0 0 L9 9").toList ∈ extractSubpaths (("M0 0 L9 9 M5 5 L6 6").toList))
     ∧ ¬ ((("M0 0 L9 9").toList.getLast? = some 'Z') ∨
          (("M0 0 L9 9").toList.getLast? = some 'z')))
    ∧ splitToSingleMovePaths (("M1 2 M3").toList) = [("M1 2 Z").toList] := by
  decide

/-- Witness for C4 at concrete split results of both variants. -/
theorem c4_flatten_amended_witness :
    ((("M0 0 L2 2 Z").toList ∈ splitToSingleMovePaths (("M0 0 L2 2 m3 3 l4 4").toList))
     ∧ ((("M0 0 L2 2 Z").toList.getLast? = some 'Z') ∨
        (("M0 0 L2 2 Z").toList.getLast? = some 'z'))
     ∧ 3 < ("M0 0 L2 2 Z").toList.length) ∧
    ((("M0 0 L9 9").toList ∈ extractSubpaths (("M0 0 L9 9 M5 5 L6 6").toList))
     ∧ SubSeg (("M0 0 L9 9").toList) (("M0 0 L9 9 M5 5 L6 6").toList)) :=
  ⟨⟨by decide,
    c4_flatten_amended.1 (("M0 0 L2 2 m3 3 l4 4").toList) (("M0 0 L2 2 Z").toList) (by decide),
    c4_flatten_amended.2.1 (("M0 0 L2 2 m3 3 l4 4").toList) (("M0 0 L2 2 Z").toList) (by decide)⟩,
   ⟨by decide,
    c4_flatten_amended.2.2 (("M0 0 L9 9 M5 5 L6 6").toList) (("M0 0 L9 9").toList) (by decide)⟩⟩

/-- Claim C3 (amended): an absent declaration, or one the four-token
regex pattern does not match, resolves to the default viewBox; a matching
declaration resolves to the four `Number`-parsed tokens — which are kept
verbatim even when a token is not a finite number (NaN fields are
returned instead of the default). -/
theorem c3_viewbox_amended :
    extractViewBox none = defaultViewBox
    ∧ (∀ c, vbMatch c = none → extractViewBox (some c) = defaultViewBox)
    ∧ (∀ c, vbMatch c = none ↔ ¬ VbShape c)
    ∧ (∀ t1 w1 t2 w2 t3 w3 t4, VbParts t1 w1 t2 w2 t3 w3 t4 →
        extractViewBox (some (t1 ++ (w1 ++ (t2 ++ (w2 ++ (t3 ++ (w3 ++ t4))))))) =
          ⟨jsNum t1, jsNum t2, jsNum t3, jsNum t4⟩) := by
  refine ⟨rfl, ?_, vbMatch_none_iff, ?_⟩
  · intro c h
    unfold extractViewBox
    dsimp only
    rw [h]
  · intro t1 w1 t2 w2 t3 w3 t4 hp
    unfold extractViewBox
    dsimp only
    rw [vbMatch_of_parts t1 w1 t2 w2 t3 w3 t4 hp]

/-- Counterexample to C3 as stated: the token `1.2.3` is not a finite
number, yet the declaration `1.2.3 0 100 100` matches the regex and the
parsed NaN is returned instead of the default viewBox. -/
theorem c3_viewbox_counterexample :
    extractViewBox (some (("1.2.3 0 100 100").toList)) ≠ defaultViewBox
    ∧ jsNum (("1.2.3").toList) = JsNum.nan
    ∧ extractViewBox (some (("1.2.3 0 100 100").toList)) =
        ⟨JsNum.nan, JsNum.fin 0, JsNum.fin 100, JsNum.fin 100⟩ := by
  decide

/-- Witness for C3 at a non-matching and at a well-formed declaration. -/
theorem c3_viewbox_amended_witness :
    (vbMatch (("abc").toList) = none
     ∧ extractViewBox (some (("abc").toList)) = defaultViewBox)
    ∧ (VbParts (("0").toList) ((" ").toList) (("0").toList) ((" ").toList)
         (("100").toList) ((" ").toList) (("50").toList)
       ∧ extractViewBox (some ((("0").toList) ++ (((" ").toList) ++
           ((("0").toList) ++ (((" ").toList) ++ ((("100").toList) ++
             (((" ").toList) ++ (("50").toList)))))))) =
           ⟨jsNum (("0").toList), jsNum (("0").toList),
            jsNum (("100").toList), jsNum (("50").toList)⟩) :=
  ⟨⟨by decide, c3_viewbox_amended.2.1 (("abc").toList) (by decide)⟩,
   ⟨by decide, c3_viewbox_amended.2.2.2 (("0").toList) ((" ").toList)
      (("0").toList) ((" ").toList) (("100").toList) ((" ").toList)
      (("50").toList) (by decide)⟩⟩

/-- Claim C5 (confirmed): batch conversion over n named inputs (1 ≤ n ≤
20) and individual-mode text conversion produce one entry per input, in
input order; a failing item is recorded in place with its name (or
letter) and error, and every other index is unaffected.  The per-item
pipeline (sharp + potrace + extraction) is the oracle `pipe`; the final
conjunct ties the individual-mode loop to the declared handler, whose
letters are the non-whitespace characters of the cleaned text. -/
theorem c5_order_isolation {α : Type} {Png : Type}
    (pipe : α → Except Str ExtractResult) (files : List (Str × α))
    (h1 : 1 ≤ files.length) (h2 : files.length ≤ 20)
    (pipeL : Char → Except Str ExtractResult) (letters : List Char)
    (O : TextOracles Png) (sizeStr yStr : Str) (fontStyle : Option Str)
    (t : Str) (ht : trim t ≠ []) :
    (batchLoop pipe files).length = files.length
    ∧ (∀ i : Nat, (batchLoop pipe files)[i]? =
        (files[i]?).map (fun f =>
          match pipe f.2 with
          | Except.ok r => BatchEntry.ok f.1 r
          | Except.error e => BatchEntry.err f.1 e))
    ∧ (indivLoop pipeL letters).length = letters.length
    ∧ (∀ i : Nat, (indivLoop pipeL letters)[i]? =
        (letters[i]?).map (fun c =>
          match pipeL c with
          | Except.ok r => LetterEntry.ok c r
          | Except.error e => LetterEntry.err c [] e))
    ∧ textToFrameP2 O (some t) sizeStr yStr fontStyle (some (("individual").toList)) =
        HResp.ok (TextResponse.indiv (indivLoop
          (fun c => combinedPipeline O (resolveFontP2 fontStyle) sizeStr yStr [c])
          (((trim t).take 50).filter (fun c => !(trim [c] = [] : Bool))))) := by
  have htne : t ≠ [] := fun he => ht (by rw [he]; rfl)
  refine ⟨?_, ?_, ?_, ?_, ?_⟩
  · rw [batchLoop_eq_map]
    exact List.length_map ..
  · intro i
    rw [batchLoop_eq_map]
    exact List.getElem?_map ..
  · rw [indivLoop_eq_map]
    exact List.length_map ..
  · intro i
    rw [indivLoop_eq_map]
    exact List.getElem?_map ..
  · unfold textToFrameP2
    dsimp only
    rw [if_neg htne, if_neg ht]
    unfold textBody
    rw [if_pos rfl]

/-- Witness for C5 at a 3-item batch whose middle item fails and a
2-letter individual conversion whose second letter fails. -/
theorem c5_order_isolation_witness :
    (1 ≤ ([((("a").toList), 0), ((("b").toList), 1), ((("c").toList), 2)] :
        List (Str × Nat)).length
     ∧ ([((("a").toList), 0), ((("b").toList), 1), ((("c").toList), 2)] :
        List (Str × Nat)).length ≤ 20
     ∧ trim (("AB").toList) ≠ []) ∧
    ((batchLoop (fun n => if n = 1 then Except.error (("boom").toList)
        else Except.ok ⟨[("M0 0 Z").toList], defaultViewBox⟩)
        [((("a").toList), 0), ((("b").toList), 1), ((("c").toList), 2)]).length = 3
     ∧ (batchLoop (fun n => if n = 1 then Except.error (("boom").toList)
        else Except.ok ⟨[("M0 0 Z").toList], defaultViewBox⟩)
        [((("a").toList), 0), ((("b").toList), 1), ((("c").toList), 2)])[1]? =
        some (BatchEntry.err (("b").toList) (("boom").toList))
     ∧ (indivLoop (fun c => if c = 'A'
          then Except.ok ⟨[("M0 0 Z").toList], defaultViewBox⟩
          else Except.error (("bad").toList)) [ 'A', 'B' ]).length = 2
     ∧ (indivLoop (fun c => if c = 'A'
          then Except.ok ⟨[("M0 0 Z").toList], defaultViewBox⟩
          else Except.error (("bad").toList)) [ 'A', 'B' ])[1]? =
        some (LetterEntry.err 'B' [] (("bad").toList))) := by
  have h := c5_order_isolation
    (fun n => if n = 1 then Except.error (("boom").toList)
      else Except.ok ⟨[("M0 0 Z").toList], defaultViewBox⟩)
    [((("a").toList), 0), ((("b").toList), 1), ((("c").toList), 2)]
    (by decide) (by decide)
    (fun c => if c = 'A' then Except.ok ⟨[("M0 0 Z").toList], defaultViewBox⟩
      else Except.error (("bad").toList)) [ 'A', 'B' ]
    (⟨fun _ => Except.error [], fun _ => Except.error [],
      fun _ => Except.error []⟩ : TextOracles Unit) [] [] none
    (("AB").toList) (by decide)
  refine ⟨⟨by decide, by decide, by decide⟩, h.1, ?_, h.2.2.1, ?_⟩
  · rw [h.2.1 1]; decide
  · rw [h.2.2.2.1 1]; decide

/-- Claim C6 (amended): the single-item handlers fail with the
empty-result error when decomposition produced zero PathRecords (and
succeed otherwise), but batch items perform no such check: a zero-path
item is recorded in place as a successful entry, exactly as a non-empty
one would be. -/
theorem c6_empty_amended {α : Type} (pipe : α → Except Str ExtractResult)
    (f : α) (r : ExtractResult) (files : List (Str × α)) (i : Nat)
    (nf : Str × α) (hok : pipe f = Except.ok r) (hfi : files[i]? = some nf) :
    (r.paths = [] → vectorizeHandler pipe (some f) = HResp.err noPathMsg)
    ∧ (r.paths ≠ [] → vectorizeHandler pipe (some f) = HResp.ok r)
    ∧ (batchLoop pipe files)[i]? = some (match pipe nf.2 with
        | Except.ok v => BatchEntry.ok nf.1 v
        | Except.error e => BatchEntry.err nf.1 e) := by
  refine ⟨?_, ?_, ?_⟩
  · intro he
    unfold vectorizeHandler
    dsimp only
    rw [hok]
    dsimp only
    rw [if_pos he]
  · intro he
    unfold vectorizeHandler
    dsimp only
    rw [hok]
    dsimp only
    rw [if_neg he]
  · rw [batchLoop_eq_map, List.getElem?_map, hfi]
    rfl

/-- Counterexample to C6 as stated: a batch item and a per-letter item
whose tracer output holds no path data decompose to zero PathRecords yet
are recorded as successful entries with empty `paths`, not as errors. -/
theorem c6_empty_counterexample :
    batchLoop processImageM [((("a").toList), Except.ok (⟨none, []⟩ : SvgDoc))] =
      [BatchEntry.ok (("a").toList) ⟨[], defaultViewBox⟩]
    ∧ indivLoop (fun _ => processImageM (Except.ok (⟨none, []⟩ : SvgDoc))) [ 'A' ] =
      [LetterEntry.ok 'A' ⟨[], defaultViewBox⟩] := by
  decide

/-- Witness for C6 at an empty-document pipeline run inside a one-item
batch and a single `/vectorize` call. -/
theorem c6_empty_amended_witness :
    (processImageM (Except.ok (⟨none, []⟩ : SvgDoc)) =
       Except.ok ⟨[], defaultViewBox⟩
     ∧ ([((("a").toList), Except.ok (⟨none, []⟩ : SvgDoc))] :
         List (Str × Except Str SvgDoc))[0]? =
       some ((("a").toList), Except.ok (⟨none, []⟩ : SvgDoc))) ∧
    (((⟨[], defaultViewBox⟩ : ExtractResult).paths = [] →
        vectorizeHandler processImageM (some (Except.ok (⟨none, []⟩ : SvgDoc))) =
          HResp.err noPathMsg)
     ∧ ((⟨[], defaultViewBox⟩ : ExtractResult).paths ≠ [] →
        vectorizeHandler processImageM (some (Except.ok (⟨none, []⟩ : SvgDoc))) =
          HResp.ok ⟨[], defaultViewBox⟩)
     ∧ (batchLoop processImageM
          [((("a").toList), Except.ok (⟨none, []⟩ : SvgDoc))])[0]? =
        some (match processImageM (Except.ok (⟨none, []⟩ : SvgDoc)) with
          | Except.ok v => BatchEntry.ok (("a").toList) v
          | Except.error e => BatchEntry.err (("a").toList) e)) :=
  ⟨⟨rfl, rfl⟩,
   c6_empty_amended processImageM (Except.ok (⟨none, []⟩ : SvgDoc))
     ⟨[], defaultViewBox⟩ [((("a").toList), Except.ok (⟨none, []⟩ : SvgDoc))]
     0 ((("a").toList), Except.ok (⟨none, []⟩ : SvgDoc)) rfl rfl⟩

/-- Claim C7 (confirmed): a missing, empty or whitespace-only text is
rejected with the 400 validation error, for every choice of the
rendering, binarising and tracing oracles — so no rasterization, tracing
or decomposition can influence (or be caused by) the rejection, and no
partial work is performed. -/
theorem c7_blank_text {Png : Type} (O : TextOracles Png) (sizeStr yStr : Str)
    (fontStyle mode : Option Str) (t : Str) (h : trim t = []) :
    textToFrameP2 O (some t) sizeStr yStr fontStyle mode = HResp.bad noTextMsg
    ∧ textToFrameP2 O none sizeStr yStr fontStyle mode = HResp.bad noTextMsg :=
  ⟨textToFrameP2_blank O sizeStr yStr fontStyle mode t h, rfl⟩

/-- Witness for C7 at a whitespace-only text with failing oracles. -/
theorem c7_blank_text_witness :
    trim (("  ").toList) = []
    ∧ textToFrameP2
        (⟨fun _ => Except.error [], fun _ => Except.error [],
          fun _ => Except.error []⟩ : TextOracles Unit)
        (some (("  ").toList)) [] [] none none = HResp.bad noTextMsg :=
  ⟨by decide,
   (c7_blank_text
      (⟨fun _ => Except.error [], fun _ => Except.error [],
        fun _ => Except.error []⟩ : TextOracles Unit)
      [] [] none none (("  ").toList) (by decide)).1⟩

/-- Claim C8 (amended): the `part_002`/`part_003` text handlers truncate
the trimmed text to 50 characters and their outcome depends on the text
only through those 50 characters; the `src/server/index.js` handler
instead truncates to 100 characters, and its rendered SVG depends on the
text only through those 100 characters. -/
theorem c8_truncation_amended {Png : Type} (O : TextOracles Png)
    (sizeStr yStr szS wS : Str) (fontStyle mode : Option Str)
    (t t1 t2 s1 s2 : Str)
    (hps : (trim t1).take 50 = (trim t2).take 50)
    (hserver : (trim s1).take 100 = (trim s2).take 100) :
    ((trim t).take 50).length ≤ 50
    ∧ textToFrameP2 O (some t1) sizeStr yStr fontStyle mode =
        textToFrameP2 O (some t2) sizeStr yStr fontStyle mode
    ∧ (serverCleanText t).length ≤ 100
    ∧ serverTextSvg szS wS (serverCleanText s1) =
        serverTextSvg szS wS (serverCleanText s2) := by
  refine ⟨?_, ?_, ?_, ?_⟩
  · rw [List.length_take]
    exact min_le_left ..
  · by_cases hb : trim t1 = []
    · have hb2 : trim t2 = [] := by
        apply (take_nil_iff_nil (trim t2)).mp
        rw [← hps, hb]
        rfl
      rw [textToFrameP2_blank O sizeStr yStr fontStyle mode t1 hb,
        textToFrameP2_blank O sizeStr yStr fontStyle mode t2 hb2]
    · have hb2 : trim t2 ≠ [] := by
        intro h2
        apply hb
        apply (take_nil_iff_nil (trim t1)).mp
        rw [hps, h2]
        rfl
      have ht1 : t1 ≠ [] := fun he => hb (by rw [he]; rfl)
      have ht2 : t2 ≠ [] := fun he => hb2 (by rw [he]; rfl)
      unfold textToFrameP2
      dsimp only
      rw [if_neg ht1, if_neg ht2, if_neg hb, if_neg hb2, hps]
  · unfold serverCleanText
    rw [List.length_take]
    exact min_le_left ..
  · unfold serverCleanText
    rw [hserver]

set_option maxRecDepth 100000 in
/-- Counterexample to C8 as stated: in the `src/server/index.js` handler
the cleaned text of a 51-character input keeps all 51 characters, and two
texts agreeing on their first 50 characters render different SVG inputs —
the 51st character influences the rendered bitmap. -/
theorem c8_truncation_counterexample :
    (serverCleanText ((List.replicate 50 'a') ++ [ 'b' ])).length = 51
    ∧ (trim ((List.replicate 50 'a') ++ [ 'b' ])).take 50 =
        (trim ((List.replicate 50 'a') ++ [ 'c' ])).take 50
    ∧ serverTextSvg (("200").toList) (("bold").toList)
        (serverCleanText ((List.replicate 50 'a') ++ [ 'b' ])) ≠
      serverTextSvg (("200").toList) (("bold").toList)
        (serverCleanText ((List.replicate 50 'a') ++ [ 'c' ])) := by
  decide

set_option maxRecDepth 100000 in
/-- Witness for C8 at two texts of lengths 55 and 52 agreeing on their
first 50 characters. -/
theorem c8_truncation_amended_witness :
    ((trim (List.replicate 55 'a')).take 50 =
       (trim (List.replicate 52 'a')).take 50
     ∧ (trim (List.replicate 105 'a')).take 100 =
       (trim (List.replicate 101 'a')).take 100) ∧
    (((trim (List.replicate 55 'a')).take 50).length ≤ 50
     ∧ textToFrameP2
         (⟨fun _ => Except.error [], fun _ => Except.error [],
           fun _ => Except.error []⟩ : TextOracles Unit)
         (some (List.replicate 55 'a')) [] [] none none =
       textToFrameP2
         (⟨fun _ => Except.error [], fun _ => Except.error [],
           fun _ => Except.error []⟩ : TextOracles Unit)
         (some (List.replicate 52 'a')) [] [] none none
     ∧ (serverCleanText (List.replicate 55 'a')).length ≤ 100
     ∧ serverTextSvg (("200").toList) (("bold").toList)
         (serverCleanText (List.replicate 105 'a')) =
       serverTextSvg (("200").toList) (("bold").toList)
         (serverCleanText (List.replicate 101 'a'))) :=
  ⟨⟨by decide, by decide⟩,
   c8_truncation_amended
     (⟨fun _ => Except.error [], fun _ => Except.error [],
       fun _ => Except.error []⟩ : TextOracles Unit)
     [] [] (("200").toList) (("bold").toList) none none
     (List.replicate 55 'a') (List.replicate 55 'a') (List.replicate 52 'a')
     (List.replicate 105 'a') (List.replicate 101 'a')
     (by decide) (by decide)⟩

/-- Claim C9 (amended): font resolution never throws, but the fallback
is not universal.  An absent key, or an unknown key that is not the name
of an inherited `Object.prototype` member, silently falls back to the
registry's default entry (`sans-bold` in `part_002`, `arial` in
`part_003`).  A key naming an inherited `Object.prototype` member (e.g.
`toString`) resolves to that truthy inherited value, so the `||`
fallback does not fire and the resolved value is not a registry entry;
every resolution is either a registry entry or such an inherited
member. -/
theorem c9_font_fallback_amended (k : Str)
    (h2 : jsLookup FONTS_P2 k = none) (h3 : jsLookup FONTS_P3 k = none)
    (hp : k ∉ protoKeys) :
    resolveFontP2 (some k) = JsFontValue.spec fontSansBold
    ∧ resolveFontP2 none = JsFontValue.spec fontSansBold
    ∧ resolveFontP3 (some k) = JsFontValue.spec fontArial
    ∧ resolveFontP3 none = JsFontValue.spec fontArial
    ∧ (∀ kp, kp ∈ protoKeys → jsLookup FONTS_P2 kp = none →
        resolveFontP2 (some kp) = JsFontValue.proto kp)
    ∧ (∀ kp, kp ∈ protoKeys → jsLookup FONTS_P3 kp = none →
        resolveFontP3 (some kp) = JsFontValue.proto kp)
    ∧ (∀ key : Option Str,
        (∃ f ∈ FONTS_P2.map Prod.snd, resolveFontP2 key = JsFontValue.spec f)
        ∨ (∃ kp ∈ protoKeys, resolveFontP2 key = JsFontValue.proto kp))
    ∧ (∀ key : Option Str,
        (∃ f ∈ FONTS_P3.map Prod.snd, resolveFontP3 key = JsFontValue.spec f)
        ∨ (∃ kp ∈ protoKeys, resolveFontP3 key = JsFontValue.proto kp)) := by
  have hg2 : jsGetProp FONTS_P2 k = none := by
    unfold jsGetProp
    rw [h2]
    dsimp only
    rw [if_neg hp]
  have hg3 : jsGetProp FONTS_P3 k = none := by
    unfold jsGetProp
    rw [h3]
    dsimp only
    rw [if_neg hp]
  refine ⟨?_, rfl, ?_, rfl, ?_, ?_, ?_, ?_⟩
  · unfold resolveFontP2
    dsimp only
    rw [hg2]
  · unfold resolveFontP3
    dsimp only
    rw [hg3]
  · intro kp hkp hl
    have hg : jsGetProp FONTS_P2 kp = some (JsFontValue.proto kp) := by
      unfold jsGetProp
      rw [hl]
      dsimp only
      rw [if_pos hkp]
    unfold resolveFontP2
    dsimp only
    rw [hg]
  · intro kp hkp hl
    have hg : jsGetProp FONTS_P3 kp = some (JsFontValue.proto kp) := by
      unfold jsGetProp
      rw [hl]
      dsimp only
      rw [if_pos hkp]
    unfold resolveFontP3
    dsimp only
    rw [hg]
  · intro key
    cases key with
    | none => exact Or.inl ⟨fontSansBold, by decide, rfl⟩
    | some kk =>
        cases hl : jsLookup FONTS_P2 kk with
        | some fsp =>
            left
            refine ⟨fsp, ?_, ?_⟩
            · obtain ⟨e, he, rfl⟩ := Option.map_eq_some'.mp hl
              exact List.mem_map_of_mem Prod.snd (List.mem_of_find?_eq_some he)
            · have hg : jsGetProp FONTS_P2 kk = some (JsFontValue.spec fsp) := by
                unfold jsGetProp
                rw [hl]
              unfold resolveFontP2
              dsimp only
              rw [hg]
        | none =>
            by_cases hkp : kk ∈ protoKeys
            · right
              refine ⟨kk, hkp, ?_⟩
              have hg : jsGetProp FONTS_P2 kk = some (JsFontValue.proto kk) := by
                unfold jsGetProp
                rw [hl]
                dsimp only
                rw [if_pos hkp]
              unfold resolveFontP2
              dsimp only
              rw [hg]
            · left
              refine ⟨fontSansBold, by decide, ?_⟩
              have hg : jsGetProp FONTS_P2 kk = none := by
                unfold jsGetProp
                rw [hl]
                dsimp only
                rw [if_neg hkp]
              unfold resolveFontP2
              dsimp only
              rw [hg]
  · intro key
    cases key with
    | none => exact Or.inl ⟨fontArial, by decide, rfl⟩
    | some kk =>
        cases hl : jsLookup FONTS_P3 kk with
        | some fsp =>
            left
            refine ⟨fsp, ?_, ?_⟩
            · obtain ⟨e, he, rfl⟩ := Option.map_eq_some'.mp hl
              exact List.mem_map_of_mem Prod.snd (List.mem_of_find?_eq_some he)
            · have hg : jsGetProp FONTS_P3 kk = some (JsFontValue.spec fsp) := by
                unfold jsGetProp
                rw [hl]
              unfold resolveFontP3
              dsimp only
              rw [hg]
        | none =>
            by_cases hkp : kk ∈ protoKeys
            · right
              refine ⟨kk, hkp, ?_⟩
              have hg : jsGetProp FONTS_P3 kk = some (JsFontValue.proto kk) := by
                unfold jsGetProp
                rw [hl]
                dsimp only
                rw [if_pos hkp]
              unfold resolveFontP3
              dsimp only
              rw [hg]
            · left
              refine ⟨fontArial, by decide, ?_⟩
              have hg : jsGetProp FONTS_P3 kk = none := by
                unfold jsGetProp
                rw [hl]
                dsimp only
                rw [if_neg hkp]
              unfold resolveFontP3
              dsimp only
              rw [hg]

/-- Counterexample to C9 as stated: the unknown key `toString` does not
fall back to the registry's default entry — the bracket access finds the
inherited `Object.prototype.toString`, which is truthy, so the `||`
fallback does not fire; the resolved value is no registry entry, and the
template renders `font-family="undefined"`. -/
theorem c9_font_counterexample :
    resolveFontP2 (some (("toString").toList)) =
      JsFontValue.proto (("toString").toList)
    ∧ resolveFontP2 (some (("toString").toList)) ≠ JsFontValue.spec fontSansBold
    ∧ (∀ f ∈ FONTS_P2.map Prod.snd,
        resolveFontP2 (some (("toString").toList)) ≠ JsFontValue.spec f)
    ∧ resolveFontP3 (some (("toString").toList)) =
      JsFontValue.proto (("toString").toList)
    ∧ resolveFontP3 (some (("toString").toList)) ≠ JsFontValue.spec fontArial
    ∧ fontFamilyStr (resolveFontP2 (some (("toString").toList))) =
        ("undefined").toList := by
  decide

/-- Witness for the amended C9 at the unknown non-prototype key `comic`
and the prototype key `toString`. -/
theorem c9_font_fallback_amended_witness :
    (jsLookup FONTS_P2 (("comic").toList) = none
     ∧ jsLookup FONTS_P3 (("comic").toList) = none
     ∧ (("comic").toList) ∉ protoKeys) ∧
    (resolveFontP2 (some (("comic").toList)) = JsFontValue.spec fontSansBold
     ∧ resolveFontP2 none = JsFontValue.spec fontSansBold
     ∧ resolveFontP3 (some (("comic").toList)) = JsFontValue.spec fontArial
     ∧ resolveFontP3 none = JsFontValue.spec fontArial
     ∧ (∀ kp, kp ∈ protoKeys → jsLookup FONTS_P2 kp = none →
         resolveFontP2 (some kp) = JsFontValue.proto kp)
     ∧ (∀ kp, kp ∈ protoKeys → jsLookup FONTS_P3 kp = none →
         resolveFontP3 (some kp) = JsFontValue.proto kp)
     ∧ (∀ key : Option Str,
         (∃ f ∈ FONTS_P2.map Prod.snd, resolveFontP2 key = JsFontValue.spec f)
         ∨ (∃ kp ∈ protoKeys, resolveFontP2 key = JsFontValue.proto kp))
     ∧ (∀ key : Option Str,
         (∃ f ∈ FONTS_P3.map Prod.snd, resolveFontP3 key = JsFontValue.spec f)
         ∨ (∃ kp ∈ protoKeys, resolveFontP3 key = JsFontValue.proto kp))) :=
  ⟨⟨by decide, by decide, by decide⟩,
   c9_font_fallback_amended (("comic").toList) (by decide) (by decide) (by decide)⟩

end VecApp
